import Mathlib

/-!
Verification of the cuspatial trajectory API declared in
`cpp/include/cuspatial/trajectory.hpp`.

The repository ships only the interface header (declarations and their
documentation); the kernels behind `derive_trajectories`,
`trajectory_distance_and_speed`, `trajectory_spatial_bounds` and
`subset_trajectory_id` are not in the tree.  Every operation below is
therefore modelled from the specification, faithful to its words, and the
claims are settled against these models.

Columns are modelled as Lean lists: the four parallel arrays
(x, y, object_id, timestamp) become a single list of `Obs` records, which
makes "jointly sorted" automatic.  Coordinates are rationals (exact stand-in
for the floating-point columns), object ids and timestamps are integers
(timestamps in seconds, matching the spec's worked scenario where a
timestamp difference of 5 yields an elapsed time of 5 s).  Distances and
speeds live in `ℝ` because of the square root.
-/

/-- One observation: x/y coordinates in meters relative to a camera origin,
an object id, and a timestamp in seconds.  Modelled from the spec: the record
formed by one index of the four parallel columnar arrays. -/
structure Obs where
  x : ℚ
  y : ℚ
  oid : ℤ
  ts : ℤ
deriving DecidableEq

/-- The composite sort key order on observations: (object_id, timestamp)
lexicographic, non-strict. -/
def keyLEP (a b : Obs) : Prop :=
  a.oid < b.oid ∨ (a.oid = b.oid ∧ a.ts ≤ b.ts)

instance : DecidableRel keyLEP := fun a b =>
  inferInstanceAs (Decidable (a.oid < b.oid ∨ (a.oid = b.oid ∧ a.ts ≤ b.ts)))

/-- An observation tagged with its original position in the input.  Modelled
from the spec: the documented stable tie-break is the original index. -/
structure Tagged where
  obs : Obs
  pos : ℕ
deriving DecidableEq

/-- Non-strict lexicographic order (object_id, timestamp, original position)
on tagged observations; total and transitive, so sorting by it realises the
documented stable sort by (object_id, timestamp). -/
def tagLEP (a b : Tagged) : Prop :=
  a.obs.oid < b.obs.oid ∨ (a.obs.oid = b.obs.oid ∧
    (a.obs.ts < b.obs.ts ∨ (a.obs.ts = b.obs.ts ∧ a.pos ≤ b.pos)))

/-- Strict lexicographic order (object_id, timestamp, original position):
equal keys force strictly increasing original positions.  Sortedness of the
tagged output under this order is exactly "stably sorted by the key". -/
def tagLT (a b : Tagged) : Prop :=
  a.obs.oid < b.obs.oid ∨ (a.obs.oid = b.obs.oid ∧
    (a.obs.ts < b.obs.ts ∨ (a.obs.ts = b.obs.ts ∧ a.pos < b.pos)))

instance : DecidableRel tagLEP := fun a b =>
  inferInstanceAs (Decidable (a.obs.oid < b.obs.oid ∨ (a.obs.oid = b.obs.oid ∧
    (a.obs.ts < b.obs.ts ∨ (a.obs.ts = b.obs.ts ∧ a.pos ≤ b.pos)))))

instance : IsTotal Tagged tagLEP := by
  constructor
  intro a b
  unfold tagLEP
  omega

instance : IsTrans Tagged tagLEP := by
  constructor
  intro a b c
  unfold tagLEP
  omega

/-- Tag each observation of a list with its position, starting at `n`. -/
def tagFrom : ℕ → List Obs → List Tagged
  | _, [] => []
  | n, o :: os => ⟨o, n⟩ :: tagFrom (n + 1) os

/-- Modelled from the spec: the stable sort step of `derive_trajectories`
(the implementation behind the header is not in the source tree), realised by
tagging with original positions and sorting by (key, position). -/
def sortTagged (l : List Obs) : List Tagged :=
  List.insertionSort tagLEP (tagFrom 0 l)

/-- The sorted observation list: the joint in-place sort of the four input
columns by (object_id, timestamp). -/
def sortObs (l : List Obs) : List Obs :=
  (sortTagged l).map Tagged.obs

theorem tagFrom_map_obs (n : ℕ) (l : List Obs) : (tagFrom n l).map Tagged.obs = l := by
  induction l generalizing n with
  | nil => rfl
  | cons o os ih => simp [tagFrom, ih]

theorem pos_ge_of_mem_tagFrom {n : ℕ} {l : List Obs} {t : Tagged}
    (h : t ∈ tagFrom n l) : n ≤ t.pos := by
  induction l generalizing n with
  | nil => cases h
  | cons o os ih =>
    rcases List.mem_cons.mp h with h | h
    · rw [h]
    · have := ih h
      omega

theorem obs_mem_of_mem_tagFrom {n : ℕ} {l : List Obs} {t : Tagged}
    (h : t ∈ tagFrom n l) : t.obs ∈ l := by
  induction l generalizing n with
  | nil => cases h
  | cons o os ih =>
    rcases List.mem_cons.mp h with h | h
    · rw [h]
      exact List.mem_cons_self o os
    · exact List.mem_cons_of_mem _ (ih h)

theorem tagFrom_pairwise_pos (n : ℕ) (l : List Obs) :
    (tagFrom n l).Pairwise fun a b => a.pos < b.pos := by
  induction l generalizing n with
  | nil => exact List.Pairwise.nil
  | cons o os ih =>
    refine List.Pairwise.cons ?_ (ih (n + 1))
    intro t ht
    have := pos_ge_of_mem_tagFrom ht
    show n < t.pos
    omega

theorem sortTagged_perm (l : List Obs) : List.Perm (sortTagged l) (tagFrom 0 l) :=
  List.perm_insertionSort tagLEP (tagFrom 0 l)

theorem sortTagged_pairwise_le (l : List Obs) : (sortTagged l).Pairwise tagLEP :=
  List.sorted_insertionSort tagLEP (tagFrom 0 l)

theorem sortTagged_pairwise_pos_ne (l : List Obs) :
    (sortTagged l).Pairwise fun a b => a.pos ≠ b.pos := by
  have hsym : ∀ {a b : Tagged}, a.pos ≠ b.pos → b.pos ≠ a.pos := fun h => h.symm
  have h0 : (tagFrom 0 l).Pairwise fun a b => a.pos ≠ b.pos :=
    (tagFrom_pairwise_pos 0 l).imp (fun h => Nat.ne_of_lt h)
  exact ((sortTagged_perm l).pairwise_iff hsym).mpr h0

theorem sortTagged_pairwise_lt (l : List Obs) : (sortTagged l).Pairwise tagLT := by
  refine ((sortTagged_pairwise_le l).and (sortTagged_pairwise_pos_ne l)).imp ?_
  intro a b h
  rcases h with ⟨hle, hne⟩
  unfold tagLEP at hle
  unfold tagLT
  omega

theorem sortObs_perm (l : List Obs) : List.Perm (sortObs l) l := by
  have h := (sortTagged_perm l).map Tagged.obs
  rwa [tagFrom_map_obs] at h

theorem sortObs_pairwise (l : List Obs) : (sortObs l).Pairwise keyLEP := by
  unfold sortObs
  rw [List.pairwise_map]
  refine (sortTagged_pairwise_le l).imp ?_
  intro a b h
  unfold tagLEP at h
  unfold keyLEP
  omega

theorem tagFrom_pairwise_lift {R : Obs → Obs → Prop} {l : List Obs}
    (h : l.Pairwise R) (n : ℕ) :
    (tagFrom n l).Pairwise fun a b => R a.obs b.obs := by
  induction l generalizing n with
  | nil => exact List.Pairwise.nil
  | cons o os ih =>
    rcases h with - | ⟨hhead, htail⟩
    refine List.Pairwise.cons ?_ (ih htail (n + 1))
    intro t ht
    exact hhead t.obs (obs_mem_of_mem_tagFrom ht)

theorem sortObs_idem (l : List Obs) : sortObs (sortObs l) = sortObs l := by
  have hpair : (tagFrom 0 (sortObs l)).Pairwise tagLEP := by
    have h1 := tagFrom_pairwise_lift (sortObs_pairwise l) 0
    have h2 := tagFrom_pairwise_pos 0 (sortObs l)
    refine (h1.and h2).imp ?_
    intro a b hab
    rcases hab with ⟨hk, hp⟩
    unfold keyLEP at hk
    unfold tagLEP
    omega
  have h2 : sortTagged (sortObs l) = tagFrom 0 (sortObs l) :=
    List.Sorted.insertionSort_eq hpair
  show (sortTagged (sortObs l)).map Tagged.obs = sortObs l
  rw [h2, tagFrom_map_obs]

/-- Lengths of the maximal runs of equal adjacent ids, accumulator form. -/
def runsAux (cur : ℤ) (cnt : ℕ) : List ℤ → List ℕ
  | [] => [cnt]
  | b :: rest => if b = cur then runsAux cur (cnt + 1) rest else cnt :: runsAux b 1 rest

/-- Modelled from the spec: the group-by step of `derive_trajectories` — the
lengths of the maximal contiguous runs of equal object ids in the sorted
id column. -/
def runLengths : List ℤ → List ℕ
  | [] => []
  | a :: rest => runsAux a 1 rest

/-- Exclusive prefix sums of the run lengths, starting from `acc`. -/
def offsetsFrom (acc : ℕ) : List ℕ → List ℕ
  | [] => []
  | n :: ns => acc :: offsetsFrom (acc + n) ns

/-- The per-observation trajectory id column: run `i` (0-based, counting from
`i0`) contributes `length[i]` copies of its trajectory id. -/
def trajIdsFrom (i0 : ℕ) : List ℕ → List ℕ
  | [] => []
  | n :: ns => List.replicate n i0 ++ trajIdsFrom (i0 + 1) ns

/-- The outputs of `derive_trajectories`: the four jointly sorted columns, the
trajectory id column, the per-trajectory length and offset columns, and the
returned number of trajectories. -/
structure DeriveResult where
  sorted : List Obs
  trajectory_id : List ℕ
  length : List ℕ
  offset : List ℕ
  count : ℕ
deriving DecidableEq

/-- Modelled from the spec: `derive_trajectories` — stable-sorts the four
input columns jointly by (object_id ascending, timestamp ascending), groups
the sorted result into maximal runs of equal object id, and emits sequential
trajectory ids from 0, run lengths, exclusive-prefix-sum offsets, and the
number of trajectories.  (The kernel behind the header declaration is not in
the source tree.) -/
def derive_trajectories (l : List Obs) : DeriveResult :=
  let s := sortObs l
  let lens := runLengths (s.map Obs.oid)
  { sorted := s
    trajectory_id := trajIdsFrom 0 lens
    length := lens
    offset := offsetsFrom 0 lens
    count := lens.length }

theorem runsAux_sum (rest : List ℤ) : ∀ (cur : ℤ) (cnt : ℕ),
    (runsAux cur cnt rest).sum = cnt + rest.length := by
  induction rest with
  | nil => intro cur cnt; simp [runsAux]
  | cons b r ih =>
    intro cur cnt
    by_cases h : b = cur
    · simp only [runsAux, if_pos h, ih]
      simp
      omega
    · simp only [runsAux, if_neg h, List.sum_cons, ih]
      simp
      omega

theorem runLengths_sum (ids : List ℤ) : (runLengths ids).sum = ids.length := by
  cases ids with
  | nil => rfl
  | cons a rest =>
    simp [runLengths, runsAux_sum]
    omega

theorem offsetsFrom_length (acc : ℕ) (ns : List ℕ) :
    (offsetsFrom acc ns).length = ns.length := by
  induction ns generalizing acc with
  | nil => rfl
  | cons n ns ih => simp [offsetsFrom, ih]

theorem offsetsFrom_getD (ns : List ℕ) : ∀ (acc i : ℕ), i < ns.length →
    (offsetsFrom acc ns).getD i 0 = acc + (ns.take i).sum := by
  induction ns with
  | nil => intro acc i h; simp at h
  | cons n ns ih =>
    intro acc i h
    cases i with
    | zero => simp [offsetsFrom]
    | succ j =>
      have hj : j < ns.length := by simpa using h
      simp only [offsetsFrom, List.getD_cons_succ, ih (acc + n) j hj, List.take_succ_cons,
        List.sum_cons]
      omega

theorem trajIdsFrom_length (ns : List ℕ) : ∀ i0 : ℕ, (trajIdsFrom i0 ns).length = ns.sum := by
  induction ns with
  | nil => intro i0; rfl
  | cons n ns ih =>
    intro i0
    simp [trajIdsFrom, ih]

theorem trajIdsFrom_segment (ns : List ℕ) : ∀ (i0 i : ℕ), i < ns.length →
    ((trajIdsFrom i0 ns).drop ((ns.take i).sum)).take (ns.getD i 0) =
      List.replicate (ns.getD i 0) (i0 + i) := by
  induction ns with
  | nil => intro i0 i h; simp at h
  | cons n ns ih =>
    intro i0 i h
    cases i with
    | zero =>
      simp only [List.take_zero, List.sum_nil, List.drop_zero, List.getD_cons_zero,
        Nat.add_zero, trajIdsFrom]
      exact List.take_left' (by simp)
    | succ j =>
      have hj : j < ns.length := by simpa using h
      simp only [List.take_succ_cons, List.sum_cons, List.getD_cons_succ, trajIdsFrom]
      rw [← List.drop_drop, List.drop_left' (by simp)]
      have hval : i0 + (j + 1) = i0 + 1 + j := by omega
      rw [hval]
      exact ih (i0 + 1) j hj

/-- C1: after `derive_trajectories` the four columns (modelled as one record
list) are jointly stable-sorted by the composite key (object_id ascending,
timestamp ascending): the output is a permutation of the input, every
adjacent pair of records is in non-decreasing key order, and the tagged sort
underlying the output is strictly ordered by (object_id, timestamp, original
position), so records with equal keys keep their original relative order. -/
theorem derive_trajectories_stable_sort (l : List Obs) :
    (derive_trajectories l).sorted = (sortTagged l).map Tagged.obs ∧
    List.Perm (derive_trajectories l).sorted l ∧
    (derive_trajectories l).sorted.Pairwise keyLEP ∧
    (sortTagged l).Pairwise tagLT :=
  ⟨rfl, sortObs_perm l, sortObs_pairwise l, sortTagged_pairwise_lt l⟩

/-- C2: the length/offset/trajectory_id index of `derive_trajectories`
partitions the sorted arrays: the lengths sum to the input observation count,
the trajectory_id column has one entry per observation, the returned count is
the number of runs, offset i is the exclusive prefix sum of the lengths, and
on run i the trajectory_id column is constantly i — so trajectory ids are
sequential integers from 0 in sorted order of first appearance and distinct
across different runs. -/
theorem derive_trajectories_partition (l : List Obs) :
    (derive_trajectories l).length.sum = l.length ∧
    (derive_trajectories l).trajectory_id.length = l.length ∧
    (derive_trajectories l).count = (derive_trajectories l).length.length ∧
    (derive_trajectories l).offset.length = (derive_trajectories l).count ∧
    (∀ i, i < (derive_trajectories l).count →
      (derive_trajectories l).offset.getD i 0 =
        ((derive_trajectories l).length.take i).sum) ∧
    (∀ i, i < (derive_trajectories l).count →
      ((derive_trajectories l).trajectory_id.drop
            ((derive_trajectories l).offset.getD i 0)).take
          ((derive_trajectories l).length.getD i 0) =
        List.replicate ((derive_trajectories l).length.getD i 0) i) := by
  constructor
  · show (runLengths ((sortObs l).map Obs.oid)).sum = l.length
    rw [runLengths_sum, List.length_map, (sortObs_perm l).length_eq]
  constructor
  · show (trajIdsFrom 0 (runLengths ((sortObs l).map Obs.oid))).length = l.length
    rw [trajIdsFrom_length, runLengths_sum, List.length_map, (sortObs_perm l).length_eq]
  constructor
  · rfl
  constructor
  · show (offsetsFrom 0 (runLengths ((sortObs l).map Obs.oid))).length = _
    rw [offsetsFrom_length]
    rfl
  constructor
  · intro i hi
    show (offsetsFrom 0 (runLengths ((sortObs l).map Obs.oid))).getD i 0 = _
    rw [offsetsFrom_getD _ 0 i hi, Nat.zero_add]
    rfl
  · intro i hi
    show ((trajIdsFrom 0 (runLengths ((sortObs l).map Obs.oid))).drop
        ((offsetsFrom 0 (runLengths ((sortObs l).map Obs.oid))).getD i 0)).take
        ((runLengths ((sortObs l).map Obs.oid)).getD i 0) = _
    rw [offsetsFrom_getD _ 0 i hi, Nat.zero_add]
    have hseg := trajIdsFrom_segment (runLengths ((sortObs l).map Obs.oid)) 0 i hi
    rw [Nat.zero_add] at hseg
    exact hseg

/-- C8: `derive_trajectories` is idempotent on its output: run again on the
already-sorted arrays it produced, it returns the same sorted arrays and, in
particular, the same trajectory_id/length/offset partition and count. -/
theorem derive_trajectories_idem (l : List Obs) :
    derive_trajectories (derive_trajectories l).sorted = derive_trajectories l := by
  show derive_trajectories (sortObs l) = derive_trajectories l
  unfold derive_trajectories
  rw [sortObs_idem]

/-- Concrete two-observation input for the C9 counterexample: object ids 7
and 3 (distinct from the trajectory ids 0 and 1). -/
def ex9 : List Obs := [⟨0, 0, 7, 0⟩, ⟨1, 1, 3, 0⟩]

/-- C9 counterexample: on `ex9` the object_id column after
`derive_trajectories` is [3, 7] — exactly the original object ids, merely
sorted — so the column still holds the original object_id values and is not
overwritten with the trajectory ids [0, 1]. -/
theorem derive_oid_column_counterexample :
    (derive_trajectories ex9).sorted.map Obs.oid = [3, 7] ∧
    List.Perm ((derive_trajectories ex9).sorted.map Obs.oid) (ex9.map Obs.oid) ∧
    (derive_trajectories ex9).trajectory_id = [0, 1] ∧
    (derive_trajectories ex9).sorted.map Obs.oid ≠
      (derive_trajectories ex9).trajectory_id.map Int.ofNat := by
  refine ⟨by decide, by decide, by decide, by decide⟩

/-- C9 amended: upon completion of `derive_trajectories` the object_id column
is mutated only by the documented joint sort — it holds exactly the original
object_id values, permuted into (object_id, timestamp) order — while the
trajectory ids are emitted in the separate trajectory_id output ("unique ids
become trajectory ids" identifies each distinct object id with a trajectory
id; it does not overwrite the column). -/
theorem derive_oid_column_only_sorted (l : List Obs) :
    List.Perm ((derive_trajectories l).sorted.map Obs.oid) (l.map Obs.oid) ∧
    (derive_trajectories l).trajectory_id =
      trajIdsFrom 0 (derive_trajectories l).length :=
  ⟨(sortObs_perm l).map Obs.oid, rfl⟩

/-- Modelled from the spec: the typed failures surfaced synchronously at each
operation boundary (§7).  Only OutOfBounds is exercised by the claims. -/
inductive GdfError where
  | outOfBounds
  | invalidArgument
deriving DecidableEq

/-- Slice of a column: the run of one trajectory, given its offset and
length. -/
def runSlice (off len : ℕ) (l : List α) : List α := (l.drop off).take len

/-- Modelled from the spec: boundary validation of the length/offset index —
every run [offset[i], offset[i]+length[i]) must lie inside the backing
arrays of length `n`. -/
def boundsOK (n : ℕ) (lens offs : List ℕ) : Bool :=
  (offs.zip lens).all fun p => p.1 + p.2 ≤ n

/-- Modelled from the spec: accumulated Euclidean distance over consecutive
point pairs of a run: Σ sqrt((x[i+1]-x[i])² + (y[i+1]-y[i])²). -/
noncomputable def pathDistance : List (ℚ × ℚ) → ℝ
  | [] => 0
  | [_] => 0
  | p :: q :: r =>
      Real.sqrt ((((q.1 - p.1) ^ 2 + (q.2 - p.2) ^ 2 : ℚ) : ℝ)) + pathDistance (q :: r)

/-- Elapsed time of a run: timestamp of the last point minus timestamp of the
first point (0 for empty and single-point runs). -/
def elapsedTime (ts : List ℤ) : ℤ := ts.getLast?.getD 0 - ts.head?.getD 0

/-- Modelled from the spec: speed = distance / elapsed time in m/s, with the
division by zero explicitly guarded — zero elapsed time yields speed 0. -/
noncomputable def runSpeed (d : ℝ) (e : ℤ) : ℝ := if e = 0 then 0 else d / (e : ℝ)

/-- The distance column: one entry per trajectory of the length/offset
index. -/
noncomputable def distList (xs ys : List ℚ) (lens offs : List ℕ) : List ℝ :=
  (offs.zip lens).map fun p => pathDistance (runSlice p.1 p.2 (xs.zip ys))

/-- The speed column: one entry per trajectory of the length/offset index. -/
noncomputable def speedList (xs ys : List ℚ) (ts : List ℤ) (lens offs : List ℕ) :
    List ℝ :=
  (offs.zip lens).map fun p =>
    runSpeed (pathDistance (runSlice p.1 p.2 (xs.zip ys)))
      (elapsedTime (runSlice p.1 p.2 ts))

/-- Modelled from the spec: `trajectory_distance_and_speed` — validates the
length/offset index against the backing arrays at the operation boundary,
before any element is read, and only then computes the per-trajectory
distance and speed columns; a malformed index yields the typed OutOfBounds
failure and no partial output.  (The kernel behind the header declaration is
not in the source tree.) -/
noncomputable def trajectory_distance_and_speed (xs ys : List ℚ) (ts : List ℤ)
    (lens offs : List ℕ) : Except GdfError (List ℝ × List ℝ) :=
  if boundsOK xs.length lens offs then
    Except.ok (distList xs ys lens offs, speedList xs ys ts lens offs)
  else
    Except.error GdfError.outOfBounds

/-- Componentwise minimum of a run (0 for the empty run, which a valid index
never produces for a real trajectory). -/
def runMin : List ℚ → ℚ
  | [] => 0
  | a :: r => r.foldl min a

/-- Componentwise maximum of a run. -/
def runMax : List ℚ → ℚ
  | [] => 0
  | a :: r => r.foldl max a

/-- Componentwise minima of one coordinate column over each trajectory's
run. -/
def bboxMinList (c : List ℚ) (lens offs : List ℕ) : List ℚ :=
  (offs.zip lens).map fun p => runMin (runSlice p.1 p.2 c)

/-- Componentwise maxima of one coordinate column over each trajectory's
run. -/
def bboxMaxList (c : List ℚ) (lens offs : List ℕ) : List ℚ :=
  (offs.zip lens).map fun p => runMax (runSlice p.1 p.2 c)

/-- Modelled from the spec: `trajectory_spatial_bounds` — validates the
length/offset index at the operation boundary, then returns per trajectory
the lower-left corner (componentwise minima) and the upper-right corner
(componentwise maxima) of its points as (bbox_x1, bbox_y1, bbox_x2, bbox_y2);
a malformed index yields the typed OutOfBounds failure and no partial
output.  (The kernel behind the header declaration is not in the source
tree.) -/
def trajectory_spatial_bounds (xs ys : List ℚ) (lens offs : List ℕ) :
    Except GdfError (List ℚ × List ℚ × List ℚ × List ℚ) :=
  if boundsOK xs.length lens offs then
    Except.ok (bboxMinList xs lens offs, bboxMinList ys lens offs,
      bboxMaxList xs lens offs, bboxMaxList ys lens offs)
  else
    Except.error GdfError.outOfBounds

/-- Modelled from the spec: `subset_trajectory_id` — keeps every observation
whose object id belongs to the selection, returns the filtered columns
ordered by (id, timestamp) as the header documents, together with the number
of distinct trajectory ids actually present in the output.  (The kernel
behind the header declaration is not in the source tree.) -/
def subset_trajectory_id (sel : List ℤ) (l : List Obs) : List Obs × ℕ :=
  let s := sortObs (l.filter fun o => decide (o.oid ∈ sel))
  (s, ((s.map Obs.oid).dedup).length)

theorem zip_getD_eq (offs lens : List ℕ) (i : ℕ) (hi : i < (offs.zip lens).length) :
    (offs.zip lens).getD i (0, 0) = (offs.getD i 0, lens.getD i 0) := by
  have hio : i < offs.length := List.lt_length_left_of_zip hi
  have hil : i < lens.length := List.lt_length_right_of_zip hi
  simp only [List.getD_eq_getElem?_getD, List.getElem?_eq_getElem hi,
    List.getElem?_eq_getElem hio, List.getElem?_eq_getElem hil, Option.getD_some,
    List.getElem_zip]

theorem map_zip_getD {β : Type} (f : ℕ × ℕ → β) (offs lens : List ℕ) (d : β) (i : ℕ)
    (hi : i < (offs.zip lens).length) :
    ((offs.zip lens).map f).getD i d = f (offs.getD i 0, lens.getD i 0) := by
  have h1 : i < ((offs.zip lens).map f).length := by simpa using hi
  rw [← zip_getD_eq offs lens i hi]
  simp only [List.getD_eq_getElem?_getD, List.getElem?_eq_getElem h1,
    List.getElem?_eq_getElem hi, Option.getD_some, List.getElem_map]

theorem boundsOK_at (n : ℕ) (lens offs : List ℕ) (i : ℕ)
    (hb : boundsOK n lens offs = true) (hi : i < (offs.zip lens).length) :
    offs.getD i 0 + lens.getD i 0 ≤ n := by
  have hmem : (offs.zip lens).getD i (0, 0) ∈ offs.zip lens := by
    rw [List.getD_eq_getElem?_getD, List.getElem?_eq_getElem hi, Option.getD_some]
    exact List.getElem_mem hi
  have hall := List.all_eq_true.mp hb _ hmem
  rw [zip_getD_eq offs lens i hi] at hall
  simpa using hall

theorem runSlice_length_le (off len : ℕ) (l : List α) :
    (runSlice off len l).length ≤ len := by
  unfold runSlice
  rw [List.length_take, List.length_drop]
  omega

theorem runSlice_length_of_le (off len : ℕ) (l : List α) (h : off + len ≤ l.length) :
    (runSlice off len l).length = len := by
  unfold runSlice
  rw [List.length_take, List.length_drop]
  omega

theorem distList_getD (xs ys : List ℚ) (lens offs : List ℕ) (i : ℕ)
    (hi : i < (offs.zip lens).length) :
    (distList xs ys lens offs).getD i 0 =
      pathDistance (runSlice (offs.getD i 0) (lens.getD i 0) (xs.zip ys)) :=
  map_zip_getD _ offs lens 0 i hi

theorem speedList_getD (xs ys : List ℚ) (ts : List ℤ) (lens offs : List ℕ) (i : ℕ)
    (hi : i < (offs.zip lens).length) :
    (speedList xs ys ts lens offs).getD i 0 =
      runSpeed (pathDistance (runSlice (offs.getD i 0) (lens.getD i 0) (xs.zip ys)))
        (elapsedTime (runSlice (offs.getD i 0) (lens.getD i 0) ts)) :=
  map_zip_getD _ offs lens 0 i hi

theorem bboxMinList_getD (c : List ℚ) (lens offs : List ℕ) (i : ℕ)
    (hi : i < (offs.zip lens).length) :
    (bboxMinList c lens offs).getD i 0 =
      runMin (runSlice (offs.getD i 0) (lens.getD i 0) c) :=
  map_zip_getD _ offs lens 0 i hi

theorem bboxMaxList_getD (c : List ℚ) (lens offs : List ℕ) (i : ℕ)
    (hi : i < (offs.zip lens).length) :
    (bboxMaxList c lens offs).getD i 0 =
      runMax (runSlice (offs.getD i 0) (lens.getD i 0) c) :=
  map_zip_getD _ offs lens 0 i hi

/-- The claim's summand: the Euclidean distance between consecutive points
j and j+1 of a run of points. -/
noncomputable def stepDist (ps : List (ℚ × ℚ)) (j : ℕ) : ℝ :=
  Real.sqrt ((((ps.getD (j + 1) (0, 0)).1 - (ps.getD j (0, 0)).1) ^ 2 +
    ((ps.getD (j + 1) (0, 0)).2 - (ps.getD j (0, 0)).2) ^ 2 : ℚ))

theorem stepDist_cons_succ (p : ℚ × ℚ) (ps : List (ℚ × ℚ)) (j : ℕ) :
    stepDist (p :: ps) (j + 1) = stepDist ps j := by
  simp [stepDist]

theorem pathDistance_eq_sum (ps : List (ℚ × ℚ)) :
    pathDistance ps = ∑ j in Finset.range (ps.length - 1), stepDist ps j := by
  induction ps with
  | nil => simp [pathDistance]
  | cons p tail ih =>
    cases tail with
    | nil => simp [pathDistance]
    | cons q r =>
      rw [show pathDistance (p :: q :: r) =
          Real.sqrt ((((q.1 - p.1) ^ 2 + (q.2 - p.2) ^ 2 : ℚ) : ℝ)) +
            pathDistance (q :: r) from rfl, ih]
      have hlen : (p :: q :: r).length - 1 = ((q :: r).length - 1) + 1 := by simp
      rw [hlen, Finset.sum_range_succ']
      simp only [stepDist_cons_succ]
      have h0 : stepDist (p :: q :: r) 0 =
          Real.sqrt ((((q.1 - p.1) ^ 2 + (q.2 - p.2) ^ 2 : ℚ) : ℝ)) := by
        simp [stepDist]
      rw [h0, add_comm]

theorem pathDistance_short {ps : List (ℚ × ℚ)} (h : ps.length ≤ 1) :
    pathDistance ps = 0 := by
  match ps with
  | [] => rfl
  | [p] => rfl
  | p :: q :: r => simp at h

theorem elapsedTime_short {ts : List ℤ} (h : ts.length ≤ 1) : elapsedTime ts = 0 := by
  match ts with
  | [] => rfl
  | [t] => simp [elapsedTime]
  | a :: b :: r => simp at h

theorem runSpeed_eq_div (d : ℝ) (e : ℤ) : runSpeed d e = d / (e : ℝ) := by
  unfold runSpeed
  by_cases h : e = 0
  · simp [h]
  · simp [h]

theorem runSpeed_zero_elapsed (d : ℝ) : runSpeed d 0 = 0 := by
  simp [runSpeed]

theorem foldl_min_le_init (l : List ℚ) : ∀ a : ℚ, l.foldl min a ≤ a := by
  induction l with
  | nil => intro a; simp
  | cons b r ih =>
    intro a
    calc (b :: r).foldl min a = r.foldl min (min a b) := rfl
    _ ≤ min a b := ih _
    _ ≤ a := min_le_left _ _

theorem foldl_min_le_mem : ∀ (l : List ℚ) (x a : ℚ), x ∈ l → l.foldl min a ≤ x := by
  intro l
  induction l with
  | nil => intro x a h; cases h
  | cons b r ih =>
    intro x a h
    rcases List.mem_cons.mp h with h | h
    · subst h
      calc (x :: r).foldl min a = r.foldl min (min a x) := rfl
      _ ≤ min a x := foldl_min_le_init _ _
      _ ≤ x := min_le_right _ _
    · exact ih x (min a b) h

theorem le_foldl_max_init (l : List ℚ) : ∀ a : ℚ, a ≤ l.foldl max a := by
  induction l with
  | nil => intro a; simp
  | cons b r ih =>
    intro a
    calc a ≤ max a b := le_max_left _ _
    _ ≤ r.foldl max (max a b) := ih _
    _ = (b :: r).foldl max a := rfl

theorem le_foldl_max_mem : ∀ (l : List ℚ) (x a : ℚ), x ∈ l → x ≤ l.foldl max a := by
  intro l
  induction l with
  | nil => intro x a h; cases h
  | cons b r ih =>
    intro x a h
    rcases List.mem_cons.mp h with h | h
    · subst h
      calc x ≤ max a x := le_max_right _ _
      _ ≤ r.foldl max (max a x) := le_foldl_max_init _ _
      _ = (x :: r).foldl max a := rfl
    · exact ih x (max a b) h

theorem runMin_le_mem {l : List ℚ} {x : ℚ} (h : x ∈ l) : runMin l ≤ x := by
  cases l with
  | nil => cases h
  | cons a r =>
    rcases List.mem_cons.mp h with h | h
    · subst h
      exact foldl_min_le_init r x
    · exact foldl_min_le_mem r x a h

theorem le_runMax_mem {l : List ℚ} {x : ℚ} (h : x ∈ l) : x ≤ runMax l := by
  cases l with
  | nil => cases h
  | cons a r =>
    rcases List.mem_cons.mp h with h | h
    · subst h
      exact le_foldl_max_init r x
    · exact le_foldl_max_mem r x a h

theorem runMin_eq_runMax_of_short {l : List ℚ} (h : l.length ≤ 1) :
    runMin l = runMax l := by
  match l with
  | [] => rfl
  | [a] => rfl
  | a :: b :: r => simp at h

/-- C3: for every trajectory i of a well-formed length/offset index,
`trajectory_distance_and_speed` returns the distance and speed columns, the
run of trajectory i has exactly length[i] points, its distance entry equals
the sum over consecutive point pairs within the run of
sqrt((x[j+1]-x[j])² + (y[j+1]-y[j])²), and its speed entry equals that
distance divided by the elapsed time (timestamp of the last point of the run
minus timestamp of the first, in seconds), in meters per second. -/
theorem trajectory_distance_and_speed_spec (xs ys : List ℚ) (ts : List ℤ)
    (lens offs : List ℕ) (i : ℕ)
    (hxy : xs.length = ys.length)
    (hb : boundsOK xs.length lens offs = true)
    (hi : i < (offs.zip lens).length) :
    trajectory_distance_and_speed xs ys ts lens offs =
      Except.ok (distList xs ys lens offs, speedList xs ys ts lens offs) ∧
    (runSlice (offs.getD i 0) (lens.getD i 0) (xs.zip ys)).length = lens.getD i 0 ∧
    (distList xs ys lens offs).getD i 0 =
      ∑ j in Finset.range (lens.getD i 0 - 1),
        stepDist (runSlice (offs.getD i 0) (lens.getD i 0) (xs.zip ys)) j ∧
    (speedList xs ys ts lens offs).getD i 0 =
      (distList xs ys lens offs).getD i 0 /
        ((elapsedTime (runSlice (offs.getD i 0) (lens.getD i 0) ts) : ℤ) : ℝ) := by
  have hrun : (runSlice (offs.getD i 0) (lens.getD i 0) (xs.zip ys)).length =
      lens.getD i 0 := by
    apply runSlice_length_of_le
    rw [List.length_zip, ← hxy, Nat.min_self]
    exact boundsOK_at xs.length lens offs i hb hi
  refine ⟨?_, hrun, ?_, ?_⟩
  · unfold trajectory_distance_and_speed
    rw [hb]
    rfl
  · rw [distList_getD xs ys lens offs i hi, pathDistance_eq_sum, hrun]
  · rw [speedList_getD xs ys ts lens offs i hi, distList_getD xs ys lens offs i hi,
      runSpeed_eq_div]

/-- C4: the speed column of `trajectory_distance_and_speed` is total (a real
number, never NaN or infinite in the exact model): for a trajectory of
length 1 the distance entry is 0 and the speed entry is 0, and whenever the
elapsed time of the run is 0 the speed entry is 0 — the division by zero is
guarded, never performed. -/
theorem trajectory_distance_and_speed_guard (xs ys : List ℚ) (ts : List ℤ)
    (lens offs : List ℕ) (i : ℕ)
    (hb : boundsOK xs.length lens offs = true)
    (hi : i < (offs.zip lens).length) :
    trajectory_distance_and_speed xs ys ts lens offs =
      Except.ok (distList xs ys lens offs, speedList xs ys ts lens offs) ∧
    (lens.getD i 0 = 1 →
      (distList xs ys lens offs).getD i 0 = 0 ∧
      (speedList xs ys ts lens offs).getD i 0 = 0) ∧
    (elapsedTime (runSlice (offs.getD i 0) (lens.getD i 0) ts) = 0 →
      (speedList xs ys ts lens offs).getD i 0 = 0) := by
  refine ⟨?_, ?_, ?_⟩
  · unfold trajectory_distance_and_speed
    rw [hb]
    rfl
  · intro h1
    have hdist : (distList xs ys lens offs).getD i 0 = 0 := by
      rw [distList_getD xs ys lens offs i hi]
      apply pathDistance_short
      have := runSlice_length_le (offs.getD i 0) (lens.getD i 0) (xs.zip ys)
      omega
    refine ⟨hdist, ?_⟩
    rw [speedList_getD xs ys ts lens offs i hi]
    have hts : elapsedTime (runSlice (offs.getD i 0) (lens.getD i 0) ts) = 0 := by
      apply elapsedTime_short
      have := runSlice_length_le (offs.getD i 0) (lens.getD i 0) ts
      omega
    rw [hts]
    exact runSpeed_zero_elapsed _
  · intro h0
    rw [speedList_getD xs ys ts lens offs i hi, h0]
    exact runSpeed_zero_elapsed _

/-- C5: on any input whose length/offset index is inconsistent with the
backing arrays (some run ends past the end of the x column), both
`trajectory_distance_and_speed` and `trajectory_spatial_bounds` fail with the
typed OutOfBounds error — the validation happens at the operation boundary
and no output columns are produced. -/
theorem trajectory_ops_out_of_bounds (xs ys : List ℚ) (ts : List ℤ)
    (lens offs : List ℕ)
    (h : ∃ i, i < (offs.zip lens).length ∧
      xs.length < offs.getD i 0 + lens.getD i 0) :
    trajectory_distance_and_speed xs ys ts lens offs =
      Except.error GdfError.outOfBounds ∧
    trajectory_spatial_bounds xs ys lens offs =
      Except.error GdfError.outOfBounds := by
  obtain ⟨i, hi, hgt⟩ := h
  have hb : boundsOK xs.length lens offs = false := by
    cases hq : boundsOK xs.length lens offs
    · rfl
    · exfalso
      have := boundsOK_at xs.length lens offs i hq hi
      omega
  constructor
  · unfold trajectory_distance_and_speed
    rw [hb]
    rfl
  · unfold trajectory_spatial_bounds
    rw [hb]
    rfl

/-- C6: for every trajectory i of a well-formed length/offset index,
`trajectory_spatial_bounds` returns per trajectory the componentwise minima
of x/y over the run as the lower-left corner and the componentwise maxima as
the upper-right corner, so every point of the run satisfies
bbox_x1 ≤ x ≤ bbox_x2 and bbox_y1 ≤ y ≤ bbox_y2; a single-point trajectory
yields a degenerate box with x1 = x2 and y1 = y2. -/
theorem trajectory_spatial_bounds_spec (xs ys : List ℚ) (lens offs : List ℕ) (i : ℕ)
    (hb : boundsOK xs.length lens offs = true)
    (hi : i < (offs.zip lens).length) :
    trajectory_spatial_bounds xs ys lens offs =
      Except.ok (bboxMinList xs lens offs, bboxMinList ys lens offs,
        bboxMaxList xs lens offs, bboxMaxList ys lens offs) ∧
    (bboxMinList xs lens offs).getD i 0 =
      runMin (runSlice (offs.getD i 0) (lens.getD i 0) xs) ∧
    (bboxMaxList xs lens offs).getD i 0 =
      runMax (runSlice (offs.getD i 0) (lens.getD i 0) xs) ∧
    (bboxMinList ys lens offs).getD i 0 =
      runMin (runSlice (offs.getD i 0) (lens.getD i 0) ys) ∧
    (bboxMaxList ys lens offs).getD i 0 =
      runMax (runSlice (offs.getD i 0) (lens.getD i 0) ys) ∧
    (∀ q ∈ runSlice (offs.getD i 0) (lens.getD i 0) xs,
      (bboxMinList xs lens offs).getD i 0 ≤ q ∧
        q ≤ (bboxMaxList xs lens offs).getD i 0) ∧
    (∀ q ∈ runSlice (offs.getD i 0) (lens.getD i 0) ys,
      (bboxMinList ys lens offs).getD i 0 ≤ q ∧
        q ≤ (bboxMaxList ys lens offs).getD i 0) ∧
    (lens.getD i 0 = 1 →
      (bboxMinList xs lens offs).getD i 0 = (bboxMaxList xs lens offs).getD i 0 ∧
      (bboxMinList ys lens offs).getD i 0 = (bboxMaxList ys lens offs).getD i 0) := by
  refine ⟨?_, bboxMinList_getD xs lens offs i hi, bboxMaxList_getD xs lens offs i hi,
    bboxMinList_getD ys lens offs i hi, bboxMaxList_getD ys lens offs i hi, ?_, ?_, ?_⟩
  · unfold trajectory_spatial_bounds
    rw [hb]
    rfl
  · intro q hq
    rw [bboxMinList_getD xs lens offs i hi, bboxMaxList_getD xs lens offs i hi]
    exact ⟨runMin_le_mem hq, le_runMax_mem hq⟩
  · intro q hq
    rw [bboxMinList_getD ys lens offs i hi, bboxMaxList_getD ys lens offs i hi]
    exact ⟨runMin_le_mem hq, le_runMax_mem hq⟩
  · intro h1
    constructor
    · rw [bboxMinList_getD xs lens offs i hi, bboxMaxList_getD xs lens offs i hi]
      apply runMin_eq_runMax_of_short
      have := runSlice_length_le (offs.getD i 0) (lens.getD i 0) xs
      omega
    · rw [bboxMinList_getD ys lens offs i hi, bboxMaxList_getD ys lens offs i hi]
      apply runMin_eq_runMax_of_short
      have := runSlice_length_le (offs.getD i 0) (lens.getD i 0) ys
      omega

/-- C7: `subset_trajectory_id` keeps exactly the observations whose object id
is in the selection: every returned observation's id is selected, the output
is a permutation of the filter of the input (so each matching input
observation appears exactly once), the returned count is the number of
distinct trajectory ids actually present in the output, and an empty
selection yields empty output and count 0, not an error. -/
theorem subset_trajectory_id_correct (sel : List ℤ) (l : List Obs) :
    (∀ o ∈ (subset_trajectory_id sel l).1, o.oid ∈ sel) ∧
    List.Perm (subset_trajectory_id sel l).1 (l.filter fun o => decide (o.oid ∈ sel)) ∧
    (subset_trajectory_id sel l).2 =
      ((subset_trajectory_id sel l).1.map Obs.oid).toFinset.card ∧
    (sel = [] →
      (subset_trajectory_id sel l).1 = [] ∧ (subset_trajectory_id sel l).2 = 0) := by
  have hperm : List.Perm (subset_trajectory_id sel l).1
      (l.filter fun o => decide (o.oid ∈ sel)) := sortObs_perm _
  refine ⟨?_, hperm, ?_, ?_⟩
  · intro o ho
    have hmem := hperm.mem_iff.mp ho
    have hf := List.mem_filter.mp hmem
    exact of_decide_eq_true hf.2
  · show ((subset_trajectory_id sel l).1.map Obs.oid).dedup.length = _
    rw [List.card_toFinset]
  · intro hsel
    subst hsel
    have hf : (l.filter fun o => decide (o.oid ∈ ([] : List ℤ))) = [] := by simp
    constructor
    · show sortObs (l.filter fun o => decide (o.oid ∈ ([] : List ℤ))) = []
      rw [hf]
      rfl
    · show ((sortObs (l.filter fun o =>
          decide (o.oid ∈ ([] : List ℤ)))).map Obs.oid).dedup.length = 0
      rw [hf]
      rfl

/-- C10: the columns returned by `subset_trajectory_id` are sorted by the
composite key (in_id, in_timestamp) ascending — the canonical order the
header documents for its outputs — not merely in input-relative order. -/
theorem subset_trajectory_id_sorted (sel : List ℤ) (l : List Obs) :
    (subset_trajectory_id sel l).1.Pairwise keyLEP :=
  sortObs_pairwise _

/-- The spec's worked scenario (§8): object_id = [1,1,2],
timestamp = [10,5,1], x = [0,0,5], y = [0,3,0]. -/
def exScenario : List Obs := [⟨0, 0, 1, 10⟩, ⟨0, 3, 1, 5⟩, ⟨5, 0, 2, 1⟩]

/-- Witness for C2, at the spec's worked scenario and trajectory index 1. -/
theorem derive_trajectories_partition_witness :
    (derive_trajectories exScenario).length.sum = exScenario.length ∧
    (derive_trajectories exScenario).offset.getD 1 0 =
      ((derive_trajectories exScenario).length.take 1).sum ∧
    ((derive_trajectories exScenario).trajectory_id.drop
        ((derive_trajectories exScenario).offset.getD 1 0)).take
      ((derive_trajectories exScenario).length.getD 1 0) =
      List.replicate ((derive_trajectories exScenario).length.getD 1 0) 1 :=
  ⟨(derive_trajectories_partition exScenario).1,
   (derive_trajectories_partition exScenario).2.2.2.2.1 1 (by decide),
   (derive_trajectories_partition exScenario).2.2.2.2.2 1 (by decide)⟩

/-- Witness for C3, at the scenario's sorted columns and trajectory 0. -/
theorem trajectory_distance_and_speed_spec_witness :
    (distList [0, 0, 5] [3, 0, 0] [2, 1] [0, 2]).getD 0 0 =
      ∑ j in Finset.range (([2, 1] : List ℕ).getD 0 0 - 1),
        stepDist (runSlice (([0, 2] : List ℕ).getD 0 0) (([2, 1] : List ℕ).getD 0 0)
          (([0, 0, 5] : List ℚ).zip [3, 0, 0])) j :=
  (trajectory_distance_and_speed_spec [0, 0, 5] [3, 0, 0] [5, 10, 1] [2, 1] [0, 2] 0
    (by decide) (by decide) (by decide)).2.2.1

/-- Witness for C4, at the scenario's single-point trajectory 1. -/
theorem trajectory_distance_and_speed_guard_witness :
    (distList [0, 0, 5] [3, 0, 0] [2, 1] [0, 2]).getD 1 0 = 0 ∧
    (speedList [0, 0, 5] [3, 0, 0] [5, 10, 1] [2, 1] [0, 2]).getD 1 0 = 0 :=
  (trajectory_distance_and_speed_guard [0, 0, 5] [3, 0, 0] [5, 10, 1] [2, 1] [0, 2] 1
    (by decide) (by decide)).2.1 (by decide)

/-- Witness for C5: a run of length 1 starting at 0 against empty backing
arrays is out of bounds and both operations fail with OutOfBounds. -/
theorem trajectory_ops_out_of_bounds_witness :
    trajectory_distance_and_speed ([] : List ℚ) ([] : List ℚ) ([] : List ℤ) [1] [0] =
      Except.error GdfError.outOfBounds ∧
    trajectory_spatial_bounds ([] : List ℚ) ([] : List ℚ) [1] [0] =
      Except.error GdfError.outOfBounds :=
  trajectory_ops_out_of_bounds [] [] [] [1] [0] ⟨0, by decide, by decide⟩

/-- Witness for C6: the x coordinate 0 of trajectory 0 of the scenario lies
within its bounding box. -/
theorem trajectory_spatial_bounds_spec_witness :
    (bboxMinList [0, 0, 5] [2, 1] [0, 2]).getD 0 0 ≤ (0 : ℚ) ∧
    (0 : ℚ) ≤ (bboxMaxList [0, 0, 5] [2, 1] [0, 2]).getD 0 0 :=
  (trajectory_spatial_bounds_spec [0, 0, 5] [3, 0, 0] [2, 1] [0, 2] 0
    (by decide) (by decide)).2.2.2.2.2.1 0 (by decide)

/-- Witness for C7: the scenario observation with object id 2 is returned by
selecting id 2, and the empty selection returns empty output and count 0. -/
theorem subset_trajectory_id_correct_witness :
    ((⟨5, 0, 2, 1⟩ : Obs).oid ∈ ([2] : List ℤ)) ∧
    ((subset_trajectory_id [] exScenario).1 = [] ∧
      (subset_trajectory_id [] exScenario).2 = 0) :=
  ⟨(subset_trajectory_id_correct [2] exScenario).1 ⟨5, 0, 2, 1⟩ (by decide),
   (subset_trajectory_id_correct [] exScenario).2.2.2 rfl⟩
